import Mathlib

/-!
Verification of the feed-watching auto-reply loop
(`messenger_auto_reply_stream.py`).

The definitions below are a shallow embedding of the Python source:
pure helpers become Lean functions, the mutable bot attributes become an
explicit `BotState` record, and one polling iteration of the main loop
becomes a state-transition function.  Python `set`s are modelled as
duplicate-free lists in insertion order (the claims below depend only on
membership and cardinality, which are order-independent; CPython's actual
set iteration order is hash-dependent).
-/

/-- The two reply languages of `detect_language`. -/
inductive Lang
  | chinese
  | english
  deriving DecidableEq, Repr

/-- Membership in the CJK range `[一-鿿]` used by `detect_language`. -/
def isCJKChar (c : Char) : Bool :=
  0x4e00 ≤ c.toNat && c.toNat ≤ 0x9fff

/-- Membership in `[a-zA-Z]` used by `detect_language`. -/
def isLatinChar (c : Char) : Bool :=
  ('a' ≤ c && c ≤ 'z') || ('A' ≤ c && c ≤ 'Z')

/-- `detect_language` from the source: compare the count of CJK-range
characters with the count of Latin letters; CJK majority gives Chinese,
otherwise any Latin letter gives English, otherwise default Chinese. -/
def detect_language (t : String) : Lang :=
  let chinese_count := (t.data.filter isCJKChar).length
  let english_count := (t.data.filter isLatinChar).length
  if chinese_count > english_count then Lang.chinese
  else if english_count > 0 then Lang.english
  else Lang.chinese

/-- The fixed punctuation set `'，。！？、'` of the Chinese segmentation rule. -/
def chinesePunct : List Char := ['，', '。', '！', '？', '、']

/-- Chinese segmentation loop of `send_text_gradually`: accumulate
characters, cut when the character is punctuation or the running segment
has reached 5 characters, flush the remainder. -/
def segmentChineseAux : List Char → List Char → List String
  | [], cur => if cur = [] then [] else [String.mk cur]
  | c :: rest, cur =>
    let cur' := cur ++ [c]
    if chinesePunct.contains c || cur'.length ≥ 5 then
      String.mk cur' :: segmentChineseAux rest []
    else
      segmentChineseAux rest cur'

/-- Chinese branch of the segmenter. -/
def segmentChinese (t : String) : List String :=
  segmentChineseAux t.data []

/-- The whitespace characters recognised by Python `str.split()`. -/
def pyIsSpace (c : Char) : Bool :=
  c = ' ' || c = '\t' || c = '\n' || c = '\r' || c = '\x0b' || c = '\x0c'

/-- Python `text.split()`: split on whitespace runs, dropping empty words. -/
def splitWordsAux : List Char → List Char → List String
  | [], cur => if cur = [] then [] else [String.mk cur]
  | c :: rest, cur =>
    if pyIsSpace c then
      if cur = [] then splitWordsAux rest []
      else String.mk cur :: splitWordsAux rest []
    else
      splitWordsAux rest (cur ++ [c])

/-- `text.split()` on a string. -/
def pySplit (t : String) : List String :=
  splitWordsAux t.data []

/-- Python `' '.join(ws)`. -/
def joinWords : List String → String
  | [] => ""
  | [w] => w
  | w :: ws => w ++ " " ++ joinWords ws

/-- Python `word.endswith(c)` for a single character suffix. -/
def pyEndsWith (w : String) (c : Char) : Bool :=
  w.data.getLast? = some c

/-- English segmentation loop of `send_text_gradually`: group words,
cut once a group holds 3 words or the word ends in `.` or `,`, flush the
remaining group. -/
def segmentEnglishAux : List String → List String → List String
  | [], cur => if cur = [] then [] else [joinWords cur]
  | w :: rest, cur =>
    let cur' := cur ++ [w]
    if cur'.length ≥ 3 || pyEndsWith w '.' || pyEndsWith w ',' then
      joinWords cur' :: segmentEnglishAux rest []
    else
      segmentEnglishAux rest cur'

/-- English branch of the segmenter. -/
def segmentEnglish (t : String) : List String :=
  segmentEnglishAux (pySplit t) []

/-- The segmenter of `send_text_gradually`: language-dispatched split of a
reply into the list of strings actually typed and submitted.  (Named
`segmentReply` because Mathlib already owns the name `segment`.) -/
def segmentReply (t : String) : List String :=
  match detect_language t with
  | Lang.chinese => segmentChinese t
  | Lang.english => segmentEnglish t

/-- Concatenation with the empty joiner (the Chinese reconstruction rule). -/
def joinAll : List String → String
  | [] => ""
  | s :: rest => s ++ joinAll rest

/-- Joining segments per the language rule: empty joiner for Chinese,
single-space joiner for English. -/
def joinSegments (lang : Lang) (segs : List String) : String :=
  match lang with
  | Lang.chinese => joinAll segs
  | Lang.english => joinWords segs

/-- One rendered feed entry, as the main loop sees it: the (already
stripped) text of the last `div[dir="auto"]` element, whether it holds an
`img` child, and that child's `src` attribute when present. -/
structure FeedEntry where
  text : String
  hasImage : Bool
  imageSrc : Option String
  deriving DecidableEq, Repr

/-- A text-only entry. -/
def mkEntry (t : String) : FeedEntry :=
  ⟨t, false, none⟩

/-- The deduplication identity (`message_id`): for an image entry with a
non-empty `src`, the tag `[IMG]` followed by the first 100 characters of
the URL; otherwise the entry's text. -/
def messageKey (e : FeedEntry) : String :=
  match e.hasImage, e.imageSrc with
  | true, some src =>
    if src = "" then e.text else "[IMG]" ++ String.mk (src.data.take 100)
  | _, _ => e.text

/-- `a.isPrefixOf`-style check on character lists, written out. -/
def strStarts : List Char → List Char → Bool
  | [], _ => true
  | _ :: _, [] => false
  | a :: as, b :: bs => a = b && strStarts as bs

/-- Python `needle in hay` on character lists (substring containment). -/
def strHasSub (needle : List Char) : List Char → Bool
  | [] => strStarts needle []
  | c :: t => strStarts needle (c :: t) || strHasSub needle t

/-- The fixed system-event keyword list of the classifier. -/
def skip_keywords : List String :=
  ["created", "removed", "added", "left", "joined", "changed"]

/-- Python `s.lower()`, character by character. -/
def pyLower (s : String) : String :=
  String.mk (s.data.map Char.toLower)

/-- `any(keyword in msg_text.lower() for keyword in skip_keywords)`. -/
def containsKw (t : String) : Bool :=
  skip_keywords.any (fun kw => strHasSub kw.data (pyLower t).data)

/-- The loop-owned mutable attributes of `MessengerAutoReplyStream`.
Python sets are modelled as duplicate-free lists in insertion order. -/
structure BotState where
  last_message_text : Option String
  processed_messages : List String
  own_sent_messages : List String
  test_mode : Bool
  deriving DecidableEq, Repr

/-- The fresh state built by `__init__`. -/
def initState (testMode : Bool) : BotState :=
  ⟨none, [], [], testMode⟩

/-- Python `set.add` on the list model: append if not already present. -/
def setInsert (l : List String) (x : String) : List String :=
  if x ∈ l then l else l ++ [x]

/-- The decision the main loop takes on the last entry of a snapshot. -/
inductive Decision
  | skipEmpty
  | skipTooLong
  | skipSystem
  | skipProcessed
  | skipSameAsLast
  | skipOwnMessage
  | acceptImage
  | acceptText
  deriving DecidableEq, Repr

/-- The classifier chain of `run` on the last entry (stream bot, lines
480-524): the empty / too-long / system filters, then the
`processed_messages` check, the `last_message_text` check, and (outside
test mode) the `own_sent_messages` self-echo check, which also records
the raw text into `last_message_text` and `processed_messages`; anything
surviving is accepted, routed by `hasImage`. -/
def classify (e : FeedEntry) (s : BotState) : Decision × BotState :=
  if e.text = "" ∧ e.hasImage = false then (Decision.skipEmpty, s)
  else if e.text.length > 500 then (Decision.skipTooLong, s)
  else if containsKw e.text = true then (Decision.skipSystem, s)
  else
    let key := messageKey e
    if key ∈ s.processed_messages then (Decision.skipProcessed, s)
    else if s.last_message_text = some key then (Decision.skipSameAsLast, s)
    else if s.test_mode = false ∧ e.text ∈ s.own_sent_messages then
      (Decision.skipOwnMessage,
        { s with last_message_text := some e.text,
                 processed_messages := setInsert s.processed_messages e.text })
    else if e.hasImage = true then (Decision.acceptImage, s)
    else (Decision.acceptText, s)

/-- The three content filters that precede the identity checks: non-empty
(or image-bearing), within the 500-character ceiling, and free of
system-event keywords. -/
def passesFilters (e : FeedEntry) : Prop :=
  ¬(e.text = "" ∧ e.hasImage = false)
  ∧ e.text.length ≤ 500
  ∧ containsKw e.text = false

instance (e : FeedEntry) : Decidable (passesFilters e) := by
  unfold passesFilters; infer_instance

/-- A decision that triggers generation and delivery. -/
def isAccept : Decision → Bool
  | Decision.acceptImage => true
  | Decision.acceptText => true
  | _ => false

/-- Overflow maintenance of `processed_messages`:
`if len > 50: clear()`. -/
def trimProcessed (l : List String) : List String :=
  if l.length > 50 then [] else l

/-- Overflow maintenance of `own_sent_messages`:
`if len > 100: own = set(list(own)[-50:])`, modelled on insertion order. -/
def trimOwn (l : List String) : List String :=
  if l.length > 100 then l.drop (l.length - 50) else l

/-- Python `s.strip()`: drop leading and trailing whitespace. -/
def pyStrip (s : String) : String :=
  String.mk (((s.data.dropWhile pyIsSpace).reverse.dropWhile pyIsSpace).reverse)

/-- The success bookkeeping after all segments were sent: add the key to
`processed_messages`, set `last_message_text`, add the full reply and the
`strip()` of every sent segment to `own_sent_messages`, then apply the two
overflow rules. -/
def recordSuccess (s : BotState) (key full : String) (segs : List String) :
    BotState :=
  let p := setInsert s.processed_messages key
  let o := segs.foldl (fun acc g => setInsert acc (pyStrip g))
    (setInsert s.own_sent_messages full)
  { s with last_message_text := some key,
           processed_messages := trimProcessed p,
           own_sent_messages := trimOwn o }

/-- Outcome of `get_ai_reply_stream`: `none` on an API error, otherwise
the list of streamed fragment contents. -/
inductive GenResult
  | genFailed
  | genOk (chunks : List String)
  deriving DecidableEq, Repr

/-- Outcome of the delivery attempt: `send_text_gradually` returning
`None` (input surface missing) versus all segments submitted. -/
inductive DeliveryResult
  | deliveryFailed
  | deliveryOk
  deriving DecidableEq, Repr

/-- One polling iteration of `run` on a text snapshot whose last entry is
`e`, with the generation and delivery outcomes as parameters: classify;
on `acceptText`, concatenate the stream into `full_response`; if it is
non-empty and delivery of `segmentReply full` succeeds (a non-empty,
non-`None` segment list), run the success bookkeeping — every other path
leaves the state as the classifier left it. -/
def runTextCycle (e : FeedEntry) (s : BotState) (gen : GenResult)
    (del : DeliveryResult) : BotState :=
  match classify e s with
  | (Decision.acceptText, s1) =>
    match gen with
    | GenResult.genFailed => s1
    | GenResult.genOk chunks =>
      let full := joinAll chunks
      if full = "" then s1
      else
        match del with
        | DeliveryResult.deliveryFailed => s1
        | DeliveryResult.deliveryOk =>
          if segmentReply full = [] then s1
          else recordSuccess s1 (messageKey e) full (segmentReply full)
  | (_, s1) => s1

/-- Observable events of the streaming iteration: a fragment arriving
from the generator (echoed to the console) and a segment submitted to
the feed. -/
inductive Event
  | readChunk (c : String)
  | sendSeg (g : String)
  deriving DecidableEq, Repr

/-- The stream-consumption loop: walk the chunks in order, emitting a
`readChunk` event for each truthy fragment while accumulating
`full_response`. -/
def runStreamPhase : List String → List Event × String
  | [] => ([], "")
  | c :: rest =>
    let (evs, tail) := runStreamPhase rest
    (if c = "" then evs else Event.readChunk c :: evs, c ++ tail)

/-- The event trace of one streaming text iteration: the stream is
consumed to completion, then — if anything was produced — the segments of
the finished reply are submitted. -/
def textCycleTrace (chunks : List String) : List Event :=
  let (evs, full) := runStreamPhase chunks
  evs ++ (if full = "" then [] else (segmentReply full).map Event.sendSeg)

/-- `true` iff every event in the list is a submission. -/
def allSends : List Event → Bool
  | [] => true
  | Event.readChunk _ :: _ => false
  | Event.sendSeg _ :: rest => allSends rest

/-- `true` iff the trace is read-phase-then-send-phase: once a submission
occurs, no further fragment is read. -/
def phaseSeparated : List Event → Bool
  | [] => true
  | Event.readChunk _ :: rest => phaseSeparated rest
  | Event.sendSeg _ :: rest => allSends rest

/-- `true` iff every event in the list is a fragment read. -/
def allReads : List Event → Bool
  | [] => true
  | Event.readChunk _ :: rest => allReads rest
  | Event.sendSeg _ :: _ => false

/-! ### Helper lemmas -/

theorem strMk_append (a b : List Char) :
    String.mk a ++ String.mk b = String.mk (a ++ b) := rfl

theorem strMk_data (s : String) : String.mk s.data = s := rfl

theorem strMk_inj {a b : List Char} (h : String.mk a = String.mk b) :
    a = b := congrArg String.data h

theorem strMk_ne_empty {a : List Char} (h : a ≠ []) : String.mk a ≠ "" := by
  intro hc
  exact h (strMk_inj hc)

theorem strMk_length (a : List Char) : (String.mk a).length = a.length := rfl

theorem joinAll_cons (s : String) (l : List String) :
    joinAll (s :: l) = s ++ joinAll l := rfl

theorem segmentChineseAux_join (cs : List Char) : ∀ cur : List Char,
    joinAll (segmentChineseAux cs cur) = String.mk (cur ++ cs) := by
  induction cs with
  | nil =>
    intro cur
    by_cases h : cur = []
    · simp [segmentChineseAux, h, joinAll]
    · simp only [segmentChineseAux, if_neg h, joinAll]
      rw [show ("" : String) = String.mk [] from rfl, strMk_append]
  | cons c rest ih =>
    intro cur
    by_cases h : chinesePunct.contains c || decide ((cur ++ [c]).length ≥ 5)
    · simp only [segmentChineseAux, if_pos h, joinAll_cons, ih, strMk_append]
      simp
    · simp only [segmentChineseAux, if_neg h, ih]
      simp

theorem segmentChineseAux_ne_nil (cs : List Char) : ∀ cur : List Char,
    cs ≠ [] ∨ cur ≠ [] → segmentChineseAux cs cur ≠ [] := by
  induction cs with
  | nil =>
    intro cur h
    rcases h with h | h
    · exact absurd rfl h
    · simp [segmentChineseAux, h]
  | cons c rest ih =>
    intro cur _
    by_cases h : chinesePunct.contains c || decide ((cur ++ [c]).length ≥ 5)
    · simp only [segmentChineseAux, if_pos h]
      simp
    · simp only [segmentChineseAux, if_neg h]
      exact ih (cur ++ [c]) (Or.inr (by simp))

theorem segmentChineseAux_mem (cs : List Char) : ∀ cur : List Char,
    cur.length ≤ 4 →
    ∀ g ∈ segmentChineseAux cs cur, g ≠ "" ∧ g.length ≤ 5 := by
  induction cs with
  | nil =>
    intro cur hc g hg
    by_cases h : cur = []
    · simp [segmentChineseAux, h] at hg
    · simp only [segmentChineseAux, if_neg h, List.mem_singleton] at hg
      subst hg
      exact ⟨strMk_ne_empty h, by simpa [strMk_length] using Nat.le_succ_of_le hc⟩
  | cons c rest ih =>
    intro cur hc g hg
    by_cases h : chinesePunct.contains c || decide ((cur ++ [c]).length ≥ 5)
    · simp only [segmentChineseAux, if_pos h, List.mem_cons] at hg
      rcases hg with hg | hg
      · subst hg
        refine ⟨strMk_ne_empty (by simp), ?_⟩
        simp only [strMk_length, List.length_append, List.length_singleton]
        omega
      · exact ih [] (by simp) g hg
    · simp only [segmentChineseAux, if_neg h] at hg
      have hlen : (cur ++ [c]).length ≤ 4 := by
        simp only [Bool.or_eq_true, decide_eq_true_eq, not_or] at h
        omega
      exact ih (cur ++ [c]) hlen g hg

theorem segmentChineseAux_cut (cs : List Char) : ∀ cur : List Char,
    cur.length ≤ 4 →
    ∀ g ∈ (segmentChineseAux cs cur).dropLast,
      ∃ c, g.data.getLast? = some c
        ∧ (chinesePunct.contains c = true ∨ g.length = 5) := by
  induction cs with
  | nil =>
    intro cur _ g hg
    by_cases h : cur = [] <;> simp [segmentChineseAux, h] at hg
  | cons c rest ih =>
    intro cur hc g hg
    by_cases h : chinesePunct.contains c || decide ((cur ++ [c]).length ≥ 5)
    · simp only [segmentChineseAux, if_pos h] at hg
      by_cases htail : segmentChineseAux rest [] = []
      · simp [htail] at hg
      · rw [List.dropLast_cons_of_ne_nil htail, List.mem_cons] at hg
        rcases hg with hg | hg
        · subst hg
          refine ⟨c, by simp [List.getLast?_concat], ?_⟩
          simp only [Bool.or_eq_true, decide_eq_true_eq] at h
          rcases h with h | h
          · exact Or.inl h
          · right
            simp only [strMk_length, List.length_append, List.length_singleton]
            simp only [List.length_append, List.length_singleton] at h
            omega
        · exact ih [] (by simp) g hg
    · simp only [segmentChineseAux, if_neg h] at hg
      have hlen : (cur ++ [c]).length ≤ 4 := by
        simp only [Bool.or_eq_true, decide_eq_true_eq, not_or] at h
        omega
      exact ih (cur ++ [c]) hlen g hg

theorem joinWords_cons_cons (w v : String) (l : List String) :
    joinWords (w :: v :: l) = w ++ " " ++ joinWords (v :: l) := rfl

theorem joinWords_append : ∀ a b : List String, a ≠ [] → b ≠ [] →
    joinWords (a ++ b) = joinWords a ++ " " ++ joinWords b := by
  intro a
  induction a with
  | nil => intro b h _; exact absurd rfl h
  | cons w a' ih =>
    intro b _ hb
    match a' with
    | [] =>
      match b with
      | [] => exact absurd rfl hb
      | v :: bs => simp [joinWords_cons_cons, joinWords]
    | v :: as =>
      have h1 : (v :: as) ++ b ≠ [] := by simp
      calc joinWords (w :: (v :: as) ++ b)
          = w ++ " " ++ joinWords ((v :: as) ++ b) := by
            cases hcons : (v :: as) ++ b with
            | nil => exact absurd hcons h1
            | cons x xs =>
              rw [show w :: (v :: as) ++ b = w :: ((v :: as) ++ b) from rfl,
                hcons, joinWords_cons_cons]
        _ = w ++ " " ++ (joinWords (v :: as) ++ " " ++ joinWords b) := by
            rw [ih b (by simp) hb]
        _ = joinWords (w :: v :: as) ++ " " ++ joinWords b := by
            rw [joinWords_cons_cons]
            simp [String.append_assoc]

theorem segmentEnglishAux_ne_nil (ws : List String) : ∀ cur : List String,
    ws ≠ [] ∨ cur ≠ [] → segmentEnglishAux ws cur ≠ [] := by
  induction ws with
  | nil =>
    intro cur h
    rcases h with h | h
    · exact absurd rfl h
    · simp [segmentEnglishAux, h]
  | cons w rest ih =>
    intro cur _
    by_cases h : decide ((cur ++ [w]).length ≥ 3) || pyEndsWith w '.'
        || pyEndsWith w ','
    · simp only [segmentEnglishAux, if_pos h]
      simp
    · simp only [segmentEnglishAux, if_neg h]
      exact ih (cur ++ [w]) (Or.inr (by simp))

theorem segmentEnglishAux_join (ws : List String) : ∀ cur : List String,
    joinWords (segmentEnglishAux ws cur) = joinWords (cur ++ ws) := by
  induction ws with
  | nil =>
    intro cur
    by_cases h : cur = []
    · simp [segmentEnglishAux, h, joinWords]
    · simp only [segmentEnglishAux, if_neg h, List.append_nil]
      cases cur with
      | nil => simp at h
      | cons v vs => rfl
  | cons w rest ih =>
    intro cur
    by_cases h : decide ((cur ++ [w]).length ≥ 3) || pyEndsWith w '.'
        || pyEndsWith w ','
    · simp only [segmentEnglishAux, if_pos h]
      by_cases hrest : rest = []
      · subst hrest
        show joinWords (joinWords (cur ++ [w]) :: segmentEnglishAux [] []) = _
        have : segmentEnglishAux ([] : List String) [] = [] := by
          simp [segmentEnglishAux]
        rw [this]
        show joinWords [joinWords (cur ++ [w])] = joinWords (cur ++ [w])
        rfl
      · have htail : segmentEnglishAux rest [] ≠ [] :=
          segmentEnglishAux_ne_nil rest [] (Or.inl hrest)
        calc joinWords (joinWords (cur ++ [w]) :: segmentEnglishAux rest [])
            = joinWords (cur ++ [w]) ++ " "
                ++ joinWords (segmentEnglishAux rest []) := by
              cases hcons : segmentEnglishAux rest [] with
              | nil => exact absurd hcons htail
              | cons x xs => exact joinWords_cons_cons _ _ _
          _ = joinWords (cur ++ [w]) ++ " " ++ joinWords rest := by
              rw [ih []]
              rfl
          _ = joinWords ((cur ++ [w]) ++ rest) := by
              rw [joinWords_append (cur ++ [w]) rest (by simp) hrest]
          _ = joinWords (cur ++ w :: rest) := by
              rw [List.append_assoc]
              rfl
    · simp only [segmentEnglishAux, if_neg h, ih]
      rw [List.append_assoc]
      rfl

theorem mem_setInsert_self (l : List String) (x : String) :
    x ∈ setInsert l x := by
  unfold setInsert
  split_ifs with h
  · exact h
  · simp

theorem mem_setInsert_of_mem {l : List String} {y : String} (x : String)
    (h : y ∈ l) : y ∈ setInsert l x := by
  unfold setInsert
  split_ifs
  · exact h
  · simp [h]

theorem mem_foldl_stripInsert (gs : List String) : ∀ acc : List String,
    ∀ x ∈ acc, x ∈ gs.foldl (fun a g => setInsert a (pyStrip g)) acc := by
  induction gs with
  | nil => intro acc x h; simpa using h
  | cons g rest ih =>
    intro acc x h
    exact ih (setInsert acc (pyStrip g)) x (mem_setInsert_of_mem _ h)

theorem strip_mem_foldl_stripInsert (gs : List String) : ∀ acc : List String,
    ∀ g ∈ gs, pyStrip g ∈ gs.foldl (fun a g => setInsert a (pyStrip g)) acc := by
  induction gs with
  | nil => intro acc g h; simp at h
  | cons g0 rest ih =>
    intro acc g h
    rcases List.mem_cons.mp h with h | h
    · subst h
      exact mem_foldl_stripInsert rest _ _ (mem_setInsert_self _ _)
    · exact ih _ g h

theorem trimProcessed_length_le (l : List String) :
    (trimProcessed l).length ≤ 50 := by
  unfold trimProcessed
  split_ifs with h
  · simp
  · omega

theorem trimOwn_length_le (l : List String) :
    (trimOwn l).length ≤ 100 := by
  unfold trimOwn
  split_ifs with h
  · simp
    omega
  · omega

theorem trimProcessed_eq_of_le {l : List String} (h : l.length ≤ 50) :
    trimProcessed l = l := by
  unfold trimProcessed
  split_ifs with h'
  · omega
  · rfl

theorem trimOwn_eq_of_le {l : List String} (h : l.length ≤ 100) :
    trimOwn l = l := by
  unfold trimOwn
  split_ifs with h'
  · omega
  · rfl

theorem classify_not_accept_of_processed {e : FeedEntry} {s : BotState}
    (h : messageKey e ∈ s.processed_messages) :
    isAccept (classify e s).1 = false := by
  unfold classify
  split_ifs <;> simp_all [isAccept]

theorem classify_not_accept_of_own {e : FeedEntry} {s : BotState}
    (htm : s.test_mode = false) (h : e.text ∈ s.own_sent_messages) :
    isAccept (classify e s).1 = false := by
  by_cases h1 : e.text = "" ∧ e.hasImage = false
  · simp [classify, h1, isAccept]
  · by_cases h2 : e.text.length > 500
    · simp [classify, h1, h2, isAccept]
    · by_cases h3 : containsKw e.text = true
      · simp [classify, h1, h2, h3, isAccept]
      · by_cases h4 : messageKey e ∈ s.processed_messages
        · simp [classify, h1, h2, h3, h4, isAccept]
        · by_cases h5 : s.last_message_text = some (messageKey e)
          · simp [classify, h1, h2, h3, h4, h5, isAccept]
          · have h6 : s.test_mode = false ∧ e.text ∈ s.own_sent_messages :=
              ⟨htm, h⟩
            simp [classify, h1, h2, h3, h4, h5, h6, isAccept]

theorem classify_acceptText_eq {e : FeedEntry} {s : BotState}
    (h : (classify e s).1 = Decision.acceptText) :
    classify e s = (Decision.acceptText, s) := by
  by_cases h1 : e.text = "" ∧ e.hasImage = false
  · simp [classify, h1] at h
  · by_cases h2 : e.text.length > 500
    · simp [classify, h1, h2] at h
    · by_cases h3 : containsKw e.text = true
      · simp [classify, h1, h2, h3] at h
      · by_cases h4 : messageKey e ∈ s.processed_messages
        · simp [classify, h1, h2, h3, h4] at h
        · by_cases h5 : s.last_message_text = some (messageKey e)
          · simp [classify, h1, h2, h3, h4, h5] at h
          · by_cases h6 : s.test_mode = false ∧ e.text ∈ s.own_sent_messages
            · simp [classify, h1, h2, h3, h4, h5, h6] at h
            · by_cases h7 : e.hasImage = true
              · simp [classify, h1, h2, h3, h4, h5, h6, h7] at h
              · have h0 : ¬e.text = "" := fun he =>
                  h1 ⟨he, by simpa using h7⟩
                simp [classify, h0, h2, h3, h4, h5, h6, h7]

theorem runStreamPhase_allReads (chunks : List String) :
    allReads (runStreamPhase chunks).1 = true := by
  induction chunks with
  | nil => rfl
  | cons c rest ih =>
    simp only [runStreamPhase]
    by_cases h : c = "" <;> simp [h, allReads, ih]

theorem allSends_map_sendSeg (l : List String) :
    allSends (l.map Event.sendSeg) = true := by
  induction l with
  | nil => rfl
  | cons g rest ih => simp [allSends, ih]

theorem phaseSeparated_of_allSends {l : List Event}
    (h : allSends l = true) : phaseSeparated l = true := by
  cases l with
  | nil => rfl
  | cons e rest =>
    cases e with
    | readChunk c => simp [allSends] at h
    | sendSeg g => simpa [phaseSeparated, allSends] using h

theorem phaseSeparated_append {a b : List Event}
    (ha : allReads a = true) (hb : phaseSeparated b = true) :
    phaseSeparated (a ++ b) = true := by
  induction a with
  | nil => simpa using hb
  | cons e rest ih =>
    cases e with
    | readChunk c =>
      simp only [allReads] at ha
      simpa [phaseSeparated] using ih ha
    | sendSeg g => simp [allReads] at ha

/-! ### Claim theorems -/

/-- C8: for every input text, `detect_language` returns primary/Chinese
when the count of CJK-range characters exceeds the count of Latin-alphabet
characters, secondary/English when it does not and at least one Latin
letter is present, and primary/Chinese otherwise (including the empty
string, whose counts are both zero). -/
theorem detect_language_spec (t : String) :
    detect_language t =
      (if t.data.countP isCJKChar > t.data.countP isLatinChar then
        Lang.chinese
      else if 0 < t.data.countP isLatinChar then Lang.english
      else Lang.chinese) := by
  simp [detect_language, List.countP_eq_length_filter]

/-- C9: under the primary-language (Chinese) segmentation rule, every
produced segment is non-empty and at most 5 characters long; every
segment except possibly the final flushed remainder was cut at a
punctuation character (its last character is in the fixed set) or at the
5-character ceiling; and the segments concatenate back to the input, so
the remainder is flushed as one final segment. -/
theorem segmentChinese_spec (T : String) :
    (∀ g ∈ segmentChinese T, g ≠ "" ∧ g.length ≤ 5)
    ∧ (∀ g ∈ (segmentChinese T).dropLast,
        ∃ c, g.data.getLast? = some c
          ∧ (chinesePunct.contains c = true ∨ g.length = 5))
    ∧ joinAll (segmentChinese T) = T := by
  refine ⟨segmentChineseAux_mem T.data [] (by simp),
    segmentChineseAux_cut T.data [] (by simp), ?_⟩
  show joinAll (segmentChineseAux T.data []) = T
  rw [segmentChineseAux_join, List.nil_append]

/-- Witness for C9 at the concrete reply `"你好，世界呀"`, whose segments
are `["你好，", "世界呀"]`. -/
theorem segmentChinese_spec_witness :
    ("你好，" ≠ "" ∧ ("你好，" : String).length ≤ 5)
      ∧ joinAll (segmentChinese "你好，世界呀") = "你好，世界呀" :=
  ⟨(segmentChinese_spec "你好，世界呀").1 "你好，" (by decide),
   (segmentChinese_spec "你好，世界呀").2.2⟩

/-- C3, counterexample: for the English-detected reply `"hi  there"`
(double space), `text.split()` collapses the whitespace, so joining the
segments with the English single-space joiner yields `"hi there"`, not
the original text — the round-trip fails. -/
theorem segment_round_trip_cex :
    detect_language "hi  there" = Lang.english
    ∧ joinSegments (detect_language "hi  there") (segmentReply "hi  there")
        ≠ "hi  there" := by decide

/-- C3, amended: joining `segmentReply T` with the language's joiner
reconstructs `T` exactly for Chinese-detected text; for English-detected
text it reconstructs the whitespace-normalised form
`' '.join(T.split())`; the segment list is non-empty provided `T` is
non-empty (Chinese) respectively `T` contains at least one word
(English). -/
theorem segment_round_trip_amended (T : String) :
    (detect_language T = Lang.chinese →
      joinSegments Lang.chinese (segmentReply T) = T
        ∧ (T ≠ "" → segmentReply T ≠ []))
    ∧ (detect_language T = Lang.english →
      joinSegments Lang.english (segmentReply T) = joinWords (pySplit T)
        ∧ (pySplit T ≠ [] → segmentReply T ≠ [])) := by
  constructor
  · intro h
    have hseg : segmentReply T = segmentChinese T := by
      simp [segmentReply, h]
    constructor
    · rw [hseg]
      show joinAll (segmentChineseAux T.data []) = T
      rw [segmentChineseAux_join, List.nil_append]
    · intro hne
      rw [hseg]
      apply segmentChineseAux_ne_nil
      left
      intro hd
      apply hne
      rw [← strMk_data T, hd]
  · intro h
    have hseg : segmentReply T = segmentEnglish T := by
      simp [segmentReply, h]
    constructor
    · rw [hseg]
      show joinWords (segmentEnglishAux (pySplit T) []) = joinWords (pySplit T)
      rw [segmentEnglishAux_join, List.nil_append]
    · intro hne
      rw [hseg]
      exact segmentEnglishAux_ne_nil (pySplit T) [] (Or.inl hne)

/-- Witness for C3 (amended) at a Chinese reply and an English reply. -/
theorem segment_round_trip_amended_witness :
    joinSegments Lang.chinese (segmentReply "你好，世界") = "你好，世界"
    ∧ joinSegments Lang.english (segmentReply "how are you doing")
        = joinWords (pySplit "how are you doing") :=
  ⟨((segment_round_trip_amended "你好，世界").1 (by decide)).1,
   ((segment_round_trip_amended "how are you doing").2 (by decide)).1⟩

/-- C7: in streaming mode, the iteration's event trace is
phase-separated — every fragment read (and console echo) happens before
the first segment submission; no segment is delivered while fragments are
still arriving. -/
theorem stream_trace_phase_separated (chunks : List String) :
    phaseSeparated (textCycleTrace chunks) = true := by
  simp only [textCycleTrace]
  cases hrun : runStreamPhase chunks with
  | mk evs full =>
    simp only
    apply phaseSeparated_append
    · have := runStreamPhase_allReads chunks
      rw [hrun] at this
      exact this
    · by_cases h : full = ""
      · simp [h, phaseSeparated]
      · simp only [if_neg h]
        exact phaseSeparated_of_allSends (allSends_map_sendSeg _)

/-- C1: for an entry that passes the empty/too-long/system filters, the
classifier accepts it (as text or image) iff its `messageKey` is not in
`processed_messages`, the key differs from `last_message_text`, and
(test-mode is on or the raw text is not in `own_sent_messages`); when any
identity check fails the decision is a skip, so no reply is generated. -/
theorem classify_accept_iff_identity_checks (e : FeedEntry) (s : BotState)
    (hf : passesFilters e) :
    isAccept (classify e s).1 = true ↔
      (messageKey e ∉ s.processed_messages
       ∧ s.last_message_text ≠ some (messageKey e)
       ∧ (s.test_mode = true ∨ e.text ∉ s.own_sent_messages)) := by
  obtain ⟨h1, h2, h3⟩ := hf
  have h2' : ¬e.text.length > 500 := by omega
  have h3' : ¬containsKw e.text = true := by simp [h3]
  by_cases h4 : messageKey e ∈ s.processed_messages
  · simp [classify, h1, h2', h3', h4, isAccept]
  · by_cases h5 : s.last_message_text = some (messageKey e)
    · simp [classify, h1, h2', h3', h4, h5, isAccept]
    · by_cases h6 : s.test_mode = false ∧ e.text ∈ s.own_sent_messages
      · simp [classify, h1, h2', h3', h4, h5, h6, isAccept, h6.1, h6.2]
      · have hor : s.test_mode = true ∨ e.text ∉ s.own_sent_messages := by
          by_cases ht : s.test_mode = true
          · exact Or.inl ht
          · exact Or.inr fun hm => h6 ⟨by simpa using ht, hm⟩
        have hrhs : messageKey e ∉ s.processed_messages
            ∧ s.last_message_text ≠ some (messageKey e)
            ∧ (s.test_mode = true ∨ e.text ∉ s.own_sent_messages) :=
          ⟨h4, h5, hor⟩
        by_cases h7 : e.hasImage = true
        · simp only [classify, if_neg h1, if_neg h2', if_neg h3',
            if_neg h4, if_neg h5, if_neg h6, if_pos h7]
          simpa [isAccept] using hrhs
        · have h0 : ¬e.text = "" := fun he => h1 ⟨he, by simpa using h7⟩
          simp only [classify, if_neg h1, if_neg h2', if_neg h3',
            if_neg h4, if_neg h5, if_neg h6, if_neg h7]
          simpa [isAccept] using hrhs

/-- Witness for C1 at a fresh state and the entry `"hello"`. -/
theorem classify_accept_iff_identity_checks_witness :
    isAccept (classify (mkEntry "hello") (initState false)).1 = true ↔
      (messageKey (mkEntry "hello") ∉ (initState false).processed_messages
       ∧ (initState false).last_message_text
           ≠ some (messageKey (mkEntry "hello"))
       ∧ ((initState false).test_mode = true
          ∨ (mkEntry "hello").text ∉ (initState false).own_sent_messages)) :=
  classify_accept_iff_identity_checks (mkEntry "hello") (initState false)
    (by decide)

/-- C5, amended: an entry whose key currently sits in
`processed_messages` is never accepted — but only for as long as the key
remains in the set; the clear-on-overflow policy (see the
counterexample) can evict it, after which the same key is accepted
again. -/
theorem classify_rejects_processed_key (e : FeedEntry) (s : BotState)
    (h : messageKey e ∈ s.processed_messages) :
    isAccept (classify e s).1 = false :=
  classify_not_accept_of_processed h

/-- Witness for C5 (amended) at a state that has processed `"hola"`. -/
theorem classify_rejects_processed_key_witness :
    isAccept (classify (mkEntry "hola")
      { last_message_text := none, processed_messages := ["hola"],
        own_sent_messages := [], test_mode := false }).1 = false :=
  classify_rejects_processed_key (mkEntry "hola")
    { last_message_text := none, processed_messages := ["hola"],
      own_sent_messages := [], test_mode := false } (by decide)

/-- The state reached from a fresh bot after 51 accepted-and-delivered
text cycles with message texts `k0..k50` (replies `r0..r50`): recording
the 51st key pushes `processed_messages` past 50, so it is cleared. -/
def overflowRun : BotState :=
  (List.range 51).foldl
    (fun s i => runTextCycle (mkEntry ("k" ++ toString i)) s
      (GenResult.genOk ["r" ++ toString i]) DeliveryResult.deliveryOk)
    (initState false)

set_option maxRecDepth 1000000 in
/-- C5, counterexample: `"k0"` enters `processed_messages` in the very
first cycle of `overflowRun`, yet after the remaining 50 accept cycles
the overflow clear has forgotten it and a redelivered `"k0"` entry is
accepted again — dedup does not hold for the process lifetime. -/
theorem dedup_forgotten_after_overflow_cex :
    "k0" ∈ (runTextCycle (mkEntry "k0") (initState false)
        (GenResult.genOk ["r0"]) DeliveryResult.deliveryOk).processed_messages
    ∧ isAccept (classify (mkEntry "k0") overflowRun).1 = true := by decide

set_option maxRecDepth 100000 in
/-- C2, counterexample: the reply `"一二三四 五"` to the accepted entry
`"你"` is delivered as the segments `["一二三四 ", "五"]`, but the loop
records `segment.strip()`, so the literal sent segment `"一二三四 "`
(trailing space) is not recorded into `own_sent_messages`. -/
theorem segment_literal_not_recorded_cex :
    "一二三四 " ∈ segmentReply "一二三四 五"
    ∧ (classify (mkEntry "你") (initState false)).1 = Decision.acceptText
    ∧ "一二三四 " ∉ (runTextCycle (mkEntry "你") (initState false)
        (GenResult.genOk ["一二三四 五"])
        DeliveryResult.deliveryOk).own_sent_messages := by decide

/-- C2, amended: on a successful delivery the loop records the key into
`processed_messages` and `last_message_text`, and the full reply plus the
whitespace-stripped form of every sent segment into
`own_sent_messages` — all before the next cycle; consequently (while
those entries remain in the sets, i.e. when the overflow trims did not
fire) a later entry in non-test mode whose text equals the reply or a
stripped segment is never accepted, hence triggers no new reply. -/
theorem recordSuccess_blocks_self_echo (s : BotState) (key full : String)
    (segs : List String) (e : FeedEntry)
    (hp : (setInsert s.processed_messages key).length ≤ 50)
    (ho : (segs.foldl (fun acc g => setInsert acc (pyStrip g))
        (setInsert s.own_sent_messages full)).length ≤ 100)
    (htm : s.test_mode = false)
    (hecho : e.text = full ∨ ∃ g ∈ segs, e.text = pyStrip g) :
    key ∈ (recordSuccess s key full segs).processed_messages
    ∧ (recordSuccess s key full segs).last_message_text = some key
    ∧ full ∈ (recordSuccess s key full segs).own_sent_messages
    ∧ (∀ g ∈ segs,
        pyStrip g ∈ (recordSuccess s key full segs).own_sent_messages)
    ∧ isAccept (classify e (recordSuccess s key full segs)).1 = false := by
  have hrs : recordSuccess s key full segs =
      { last_message_text := some key,
        processed_messages := setInsert s.processed_messages key,
        own_sent_messages :=
          segs.foldl (fun acc g => setInsert acc (pyStrip g))
            (setInsert s.own_sent_messages full),
        test_mode := s.test_mode } := by
    simp only [recordSuccess]
    rw [trimProcessed_eq_of_le hp, trimOwn_eq_of_le ho]
  rw [hrs]
  refine ⟨mem_setInsert_self _ _, rfl, ?_, ?_, ?_⟩
  · exact mem_foldl_stripInsert segs _ full (mem_setInsert_self _ _)
  · intro g hg
    exact strip_mem_foldl_stripInsert segs _ g hg
  · apply classify_not_accept_of_own
    · exact htm
    · rcases hecho with h | ⟨g, hg, h⟩
      · rw [h]
        exact mem_foldl_stripInsert segs _ full (mem_setInsert_self _ _)
      · rw [h]
        exact strip_mem_foldl_stripInsert segs _ g hg

/-- Witness for C2 (amended): recording the reply `"回复了"` under key
`"k"` from a fresh state, then classifying an entry echoing the reply. -/
theorem recordSuccess_blocks_self_echo_witness :
    "回复了" ∈ (recordSuccess (initState false) "k" "回复了"
        ["回复了"]).own_sent_messages
    ∧ isAccept (classify (mkEntry "回复了")
        (recordSuccess (initState false) "k" "回复了" ["回复了"])).1
        = false :=
  ⟨(recordSuccess_blocks_self_echo (initState false) "k" "回复了" ["回复了"]
      (mkEntry "回复了") (by decide) (by decide) rfl (Or.inl rfl)).2.2.1,
   (recordSuccess_blocks_self_echo (initState false) "k" "回复了" ["回复了"]
      (mkEntry "回复了") (by decide) (by decide) rfl (Or.inl rfl)).2.2.2.2⟩

theorem strData_append (a b : String) : (a ++ b).data = a.data ++ b.data :=
  rfl

/-- C4, counterexample: the fresh entry `"你好"` is accepted, generation
fails (`get_ai_reply_stream` returns `None`), and the cycle records
nothing — the key is absent from `processed_messages` afterwards, so the
same entry is retried on the next snapshot instead of being marked
processed. -/
theorem failed_cycle_key_not_recorded_cex :
    (classify (mkEntry "你好") (initState false)).1 = Decision.acceptText
    ∧ "你好" ∉ (runTextCycle (mkEntry "你好") (initState false)
        GenResult.genFailed DeliveryResult.deliveryOk).processed_messages
    ∧ runTextCycle (mkEntry "你好") (initState false) GenResult.genFailed
        DeliveryResult.deliveryOk = initState false := by decide

/-- C4, amended: a cycle whose accepted text entry hits a generation
failure or a delivery failure records nothing at all — the state comes
back unchanged, so the key is **not** added to `processed_messages` and
the same entry stays eligible for retry on later snapshots. -/
theorem failed_cycle_state_unchanged (e : FeedEntry) (s : BotState)
    (chunks : List String) (del : DeliveryResult)
    (hacc : (classify e s).1 = Decision.acceptText) :
    runTextCycle e s GenResult.genFailed del = s
    ∧ runTextCycle e s (GenResult.genOk chunks) DeliveryResult.deliveryFailed
        = s := by
  have hcs := classify_acceptText_eq hacc
  constructor
  · simp [runTextCycle, hcs]
  · simp only [runTextCycle, hcs]
    by_cases h : joinAll chunks = "" <;> simp [h]

/-- Witness for C4 (amended) at the entry `"你好"` from a fresh state. -/
theorem failed_cycle_state_unchanged_witness :
    runTextCycle (mkEntry "你好") (initState false) GenResult.genFailed
        DeliveryResult.deliveryOk = initState false
    ∧ runTextCycle (mkEntry "你好") (initState false)
        (GenResult.genOk ["好的"]) DeliveryResult.deliveryFailed
        = initState false :=
  failed_cycle_state_unchanged (mkEntry "你好") (initState false) ["好的"]
    DeliveryResult.deliveryOk (by decide)

/-- 51 distinct strings, the smallest overflow input for `trimProcessed`. -/
def fiftyOneKeys : List String := (List.range 51).map (fun i => toString i)

set_option maxRecDepth 1000000 in
/-- C6, counterexample: the two sets are not maintained with the same
overflow policy — on the same 51-element set the `processed_messages`
rule clears everything, while the `own_sent_messages` rule (whose
threshold is 100, not 50, and which keeps the 50 newest entries rather
than clearing) leaves it untouched. -/
theorem overflow_policies_differ_cex :
    trimProcessed fiftyOneKeys = []
    ∧ trimOwn fiftyOneKeys = fiftyOneKeys
    ∧ fiftyOneKeys ≠ []
    ∧ trimProcessed fiftyOneKeys ≠ trimOwn fiftyOneKeys := by decide

/-- C6, amended: the capacities and overflow policies of the two sets
differ — `processed_messages` is cleared entirely when it exceeds 50,
`own_sent_messages` is cut to its 50 newest entries when it exceeds
100 — but after every success-recording cycle both bounds hold:
`|processed_messages| ≤ 50` and `|own_sent_messages| ≤ 100`.  (The
self-echo skip path inserts into `processed_messages` without applying
any bound, so only success recordings restore the bound.) -/
theorem recordSuccess_bounds (s : BotState) (key full : String)
    (segs : List String) :
    (recordSuccess s key full segs).processed_messages.length ≤ 50
    ∧ (recordSuccess s key full segs).own_sent_messages.length ≤ 100 :=
  ⟨trimProcessed_length_le _, trimOwn_length_le _⟩

/-- Two 101-character image URLs that differ only in their last
character. -/
def imgUrlA : String := String.mk (List.replicate 100 'a') ++ "x"

/-- See `imgUrlA`. -/
def imgUrlB : String := String.mk (List.replicate 100 'a') ++ "y"

set_option maxRecDepth 100000 in
/-- C10, counterexample: the key uses only the first 100 characters of
the image URL, so two distinct image references sharing a 100-character
prefix collide on the same `messageKey`. -/
theorem image_key_collision_cex :
    imgUrlA ≠ imgUrlB
    ∧ messageKey ⟨"", true, some imgUrlA⟩
        = messageKey ⟨"", true, some imgUrlB⟩ := by decide

/-- C10, amended: image keys separate references that differ within
their first 100 characters, and an identical text reposted later maps to
the same key (the key of a text entry is the text itself); only URLs
agreeing on their full 100-character prefix can collide. -/
theorem image_key_distinct_amended (t1 t2 s1 s2 : String)
    (h1 : s1 ≠ "") (h2 : s2 ≠ "")
    (hpre : s1.data.take 100 ≠ s2.data.take 100) :
    messageKey ⟨t1, true, some s1⟩ ≠ messageKey ⟨t2, true, some s2⟩
    ∧ ∀ t : String, messageKey (mkEntry t) = t := by
  constructor
  · intro heq
    simp only [messageKey, if_neg h1, if_neg h2] at heq
    apply hpre
    have hdata := congrArg String.data heq
    rw [strData_append, strData_append] at hdata
    exact List.append_cancel_left hdata
  · intro t
    rfl

/-- Witness for C10 (amended) at two short distinct URLs and a text
entry. -/
theorem image_key_distinct_amended_witness :
    messageKey ⟨"", true, some "u1"⟩ ≠ messageKey ⟨"", true, some "u2"⟩
    ∧ messageKey (mkEntry "hello") = "hello" :=
  ⟨(image_key_distinct_amended "" "" "u1" "u2" (by decide) (by decide)
      (by decide)).1,
   (image_key_distinct_amended "" "" "u1" "u2" (by decide) (by decide)
      (by decide)).2 "hello"⟩
